/-
  Verification development for `build_calendar.py` (phoenix-calendar).

  Shallow embedding: the Python functions are translated into executable Lean
  definitions.  HTML documents (BeautifulSoup trees) are modelled as flattened
  node streams plus the text views the extractors consume; the regular
  expressions of the source are translated into explicit character-list
  matchers; Python `datetime.date` / `datetime.datetime` arithmetic is
  modelled with proleptic-Gregorian ordinal arithmetic over `Nat`, following
  CPython's `_days_before_year` formula; exceptions (`KeyError`, `ValueError`)
  are modelled with `Except String`.
-/
import Mathlib

namespace Phoenix

/-! ## Character classes and string scanning -/

/-- Python regex word character, ASCII fragment: `[A-Za-z0-9_]`. -/
def isWordChar (c : Char) : Bool := c.isAlphanum || c == '_'

/-- Python regex `\s`, restricted to the ASCII whitespace that occurs in
scraped label text. -/
def isWS (c : Char) : Bool := c == ' ' || c == '\t' || c == '\n' || c == '\r'

/-- Case-insensitive character comparison (ASCII lowering, as Python `re.I`
behaves on the ASCII patterns used in the source). -/
def chEqCI (a b : Char) : Bool := a.toLower == b.toLower

/-- Does `pat` occur verbatim at the head of `cs`?  (Literal regex fragment.) -/
def litAt : List Char → List Char → Bool
  | [], _ => true
  | _ :: _, [] => false
  | p :: ps, c :: cs => p == c && litAt ps cs

/-- Case-insensitive variant of `litAt`. -/
def litAtCI : List Char → List Char → Bool
  | [], _ => true
  | _ :: _, [] => false
  | p :: ps, c :: cs => chEqCI p c && litAtCI ps cs

/-- `needle` occurs somewhere in `hay` (Python's `needle in haystack`). -/
def subIn (needle : List Char) : List Char → Bool
  | [] => litAt needle []
  | c :: cs => litAt needle (c :: cs) || subIn needle cs

/-- Case-insensitive substring occurrence (for `re.search(..., re.I)` on a
plain literal pattern). -/
def subInCI (needle : List Char) : List Char → Bool
  | [] => litAtCI needle []
  | c :: cs => litAtCI needle (c :: cs) || subInCI needle cs

/-- String-level wrapper for `subIn`: Python's `"x" in text`. -/
def containsSub (needle hay : String) : Bool := subIn needle.data hay.data

/-- ASCII lowering of a string (Python `str.lower()` on the ASCII tokens it
is applied to). -/
def lowerStr (s : String) : String := String.mk (s.data.map Char.toLower)

/-- First `n` characters of a string (Python slicing `s[:n]` by code
points). -/
def strTake (s : String) (n : Nat) : String := String.mk (s.data.take n)

/-- Decimal digit run to a number, as Python `int()` on a digit string. -/
def natOfDigits (ds : List Char) : Nat :=
  ds.foldl (fun acc c => 10 * acc + (c.toNat - '0'.toNat)) 0

/-! ## Calendar arithmetic (model of `datetime.date` / `datetime.datetime`)

Dates are proleptic Gregorian.  `daysBeforeYear` follows CPython's
`_days_before_year(year) = y*365 + y//4 - y//100 + y//400` with `y = year-1`;
`toOrd` is CPython's `date.toordinal` (0001-01-01 has ordinal 1).  CPython
compares dates field-lexicographically and implements
`date - timedelta(days=k)` through ordinals; for valid dates the two views
agree, and the embedding uses the ordinal view throughout. -/

/-- Gregorian leap-year predicate (CPython `_is_leap`). -/
def isLeap (y : Nat) : Bool := (y % 4 == 0 && y % 100 != 0) || y % 400 == 0

/-- Days in calendar year `y`. -/
def daysInYear (y : Nat) : Nat := if isLeap y then 366 else 365

/-- Days in a year with the given leap flag. -/
def daysInYear' (leap : Bool) : Nat := if leap then 366 else 365

/-- Days in all years `1 .. y-1` (CPython `_days_before_year`). -/
def daysBeforeYear (y : Nat) : Nat :=
  (y - 1) * 365 + (y - 1) / 4 - (y - 1) / 100 + (y - 1) / 400

/-- Days in month `m` of a (non-)leap year (CPython `_days_in_month`). -/
def daysInMonth (leap : Bool) (m : Nat) : Nat :=
  match m with
  | 1 => 31 | 2 => if leap then 29 else 28 | 3 => 31 | 4 => 30
  | 5 => 31 | 6 => 30 | 7 => 31 | 8 => 31
  | 9 => 30 | 10 => 31 | 11 => 30 | 12 => 31
  | _ => 0

/-- Days in the months before month `m` (CPython `_days_before_month`). -/
def daysBeforeMonth (leap : Bool) (m : Nat) : Nat :=
  (match m with
   | 1 => 0 | 2 => 31 | 3 => 59 | 4 => 90 | 5 => 120 | 6 => 151
   | 7 => 181 | 8 => 212 | 9 => 243 | 10 => 273 | 11 => 304 | 12 => 334
   | _ => 0)
  + (if leap && decide (2 < m) then 1 else 0)

/-- A calendar date, as the field triple of a Python `datetime.date`. -/
structure Date where
  year : Nat
  month : Nat
  day : Nat
deriving DecidableEq, Repr

/-- The range check performed by the `datetime.date` / `datetime.datetime`
constructors; a failing check is a Python `ValueError`. -/
def validDate (d : Date) : Bool :=
  1 ≤ d.year && d.year ≤ 9999 && 1 ≤ d.month && d.month ≤ 12 &&
    1 ≤ d.day && d.day ≤ daysInMonth (isLeap d.year) d.month

/-- CPython `date.toordinal`: day number in the proleptic Gregorian calendar,
with 0001-01-01 ↦ 1. -/
def toOrd (d : Date) : Nat :=
  daysBeforeYear d.year + daysBeforeMonth (isLeap d.year) d.month + d.day

/-- A timezone-aware `datetime.datetime` as produced by the resolver: field
tuple plus the attached `tzinfo` key. -/
structure DT where
  year : Nat
  month : Nat
  day : Nat
  hour : Nat
  minute : Nat
  tz : String
deriving DecidableEq, Repr

/-- Calendar date of a datetime. -/
def DT.dateOf (t : DT) : Date := ⟨t.year, t.month, t.day⟩

/-! ## Label matchers (models of the source's regular expressions) -/

/-- The seven three-letter weekday literals of the alternation
`(?:Mon|Tue|Wed|Thu|Fri|Sat|Sun)`. -/
def weekdays : List String := ["Mon", "Tue", "Wed", "Thu", "Fri", "Sat", "Sun"]

/-- If `cs` starts with one of the weekday literals, drop those three
characters; the alternatives are pairwise distinct so at most one matches. -/
def dropWeekday (cs : List Char) : Option (List Char) :=
  if weekdays.any (fun w => litAt w.data cs) then some (cs.drop 3) else none

/-- Walk-phase date-line test, `re.match(r"^(Mon|Tue|Wed|Thu|Fri|Sat|Sun)\b", txt)`:
a weekday literal at the start followed by a word boundary. -/
def isDateLine (s : String) : Bool :=
  match dropWeekday s.data with
  | some [] => true
  | some (c :: _) => !isWordChar c
  | none => false

/-- `re.sub(r",.*$", "", txt)` on single-line label text: keep everything
before the first comma. -/
def stripAfterComma (s : String) : String :=
  String.mk (s.data.takeWhile (fun c => c != ','))

/-- A greedy run of `\d{1,2}`: succeeds exactly when the maximal leading digit
run has length 1 or 2 (a third digit makes the following `\s+` / `\.` fail with
no recoverable backtracking). -/
def take12Digits (cs : List Char) : Option (List Char × List Char) :=
  let ds := cs.takeWhile Char.isDigit
  if ds.length == 1 || ds.length == 2 then some (ds, cs.drop ds.length) else none

/-- `\s+`: at least one whitespace character, consumed greedily. -/
def dropWS1 (cs : List Char) : Option (List Char) :=
  match cs with
  | [] => none
  | c :: rest => if isWS c then some (rest.dropWhile isWS) else none

/-- Resolution-phase date-label match,
`re.match(r"^(?:Mon|Tue|Wed|Thu|Fri|Sat|Sun)\s+(\d{1,2})\s+([A-Za-z]{3})", dlabel)`:
returns the captured day number and the captured three-letter month token.
Trailing input after the month token is permitted (the pattern is anchored only
at the start). -/
def dateLabelMatch (s : String) : Option (Nat × String) := do
  let r1 ← dropWeekday s.data
  let r2 ← dropWS1 r1
  let (ds, r3) ← take12Digits r2
  let r4 ← dropWS1 r3
  match r4 with
  | a :: b :: c :: _ =>
    if a.isAlpha && b.isAlpha && c.isAlpha then
      some (natOfDigits ds, String.mk [a, b, c])
    else none
  | _ => none

/-- The `month_map` dictionary: lowercase three-letter month names to 1–12;
a missing key is a Python `KeyError`. -/
def monthMap (s : String) : Option Nat :=
  match s with
  | "jan" => some 1 | "feb" => some 2 | "mar" => some 3 | "apr" => some 4
  | "may" => some 5 | "jun" => some 6 | "jul" => some 7 | "aug" => some 8
  | "sep" => some 9 | "oct" => some 10 | "nov" => some 11 | "dec" => some 12
  | _ => none

/-- Time-label match, `re.match(r"^(\d{1,2})\.(\d{2})(am|pm)$", t, re.I)`:
returns (hour token value, minute token value, is-pm).  The pattern is anchored
at both ends; the minute group must be exactly two digits. -/
def timeLabelMatch (s : String) : Option (Nat × Nat × Bool) := do
  let (hs, r1) ← take12Digits s.data
  match r1 with
  | '.' :: r2 =>
    let ms := r2.takeWhile Char.isDigit
    if ms.length == 2 then
      match r2.drop 2 with
      | [a, b] =>
        if chEqCI a 'a' && chEqCI b 'm' then some (natOfDigits hs, natOfDigits ms, false)
        else if chEqCI a 'p' && chEqCI b 'm' then some (natOfDigits hs, natOfDigits ms, true)
        else none
      | _ => none
    else none
  | _ => none

/-! ## The temporal resolver (model of `parse_times_and_dates`) -/

/-- The zone attached to every resolved start instant,
`ZoneInfo("Europe/London")`. -/
def TZNAME : String := "Europe/London"

/-- Year chosen for a day/month pair against the reference date: tentatively
the reference year, rolled one forward when
`dt.date(this_year, mon, day) < today - dt.timedelta(days=2)`.  CPython
implements that comparison and subtraction through `toordinal`, so the
condition is `toOrd ⟨thisYear, mon, day⟩ + 2 < toOrd today`. -/
def pickYear (today : Date) (mon day : Nat) : Nat :=
  if toOrd ⟨today.year, mon, day⟩ + 2 < toOrd today then today.year + 1 else today.year

/-- 24-hour hour from the captured 12-hour token: `hh = int(...) % 12`, plus
12 when the suffix is `pm`. -/
def to24Hour (h : Nat) (isPM : Bool) : Nat := h % 12 + (if isPM then 12 else 0)

/-- One iteration of the resolution loop over a scraped
(date-label, time-label, href) triple.
`.ok none` models `continue` (a regex failed to match: the item is skipped);
`.error` models an uncaught Python exception (`KeyError` from `month_map`,
`ValueError` from `dt.date` / `dt.datetime` construction), which aborts the
whole call.  In the source the date is constructed once with the tentative
year and reconstructed after a roll; here both constructions appear as
`validDate` checks, first on the tentative year and then on the picked year
(identical to the first check when no roll happened). -/
def resolveOne (today : Date) (dlabel tlabel href : String) :
    Except String (Option (DT × String)) :=
  match dateLabelMatch dlabel with
  | none => .ok none
  | some (day, monTok) =>
    match monthMap (lowerStr monTok) with
    | none => .error "KeyError"
    | some mon =>
      if !validDate ⟨today.year, mon, day⟩ then .error "ValueError"
      else if !validDate ⟨pickYear today mon day, mon, day⟩ then .error "ValueError"
      else
        match timeLabelMatch tlabel with
        | none => .ok none
        | some (h, mm, isPM) =>
          if 60 ≤ mm then .error "ValueError"
          else
            .ok (some (⟨pickYear today mon day, mon, day, to24Hour h isPM, mm, TZNAME⟩,
              href))

/-- The resolution loop: appends resolved entries in order, skips items whose
label regexes fail, and propagates the first exception (discarding everything,
as an uncaught exception does). -/
def resolveEvents (today : Date) : List (String × String × String) →
    Except String (List (DT × String))
  | [] => .ok []
  | (d, t, h) :: rest =>
    match resolveOne today d t h with
    | .error e => .error e
    | .ok none => resolveEvents today rest
    | .ok (some r) => (resolveEvents today rest).map (r :: ·)

/-! ## Document model

A parsed HTML document (BeautifulSoup tree) is modelled as its flattened
element stream (`nodes`, in document order, each with tag name, `get_text`
result and optional `href`), together with the text views the field
extractors consume: the whole-document flattened text, the paragraph texts in
document order, and the text of the first `h1`/`h2` element. -/

structure Node where
  tag : String
  txt : String
  href : Option String
deriving DecidableEq, Repr

structure PDoc where
  fullText : String
  paras : List String
  headingTxt : Option String
  nodes : List Node
deriving DecidableEq, Repr

/-- Base and entry-point URLs of the crawl. -/
def BASE : String := "https://www.phoenix.org.uk"

/-- `requests.compat.urljoin(BASE, href)` for the href shapes the site
emits: an absolute URL is kept, a scheme-relative `//…` gets the base scheme,
a root-relative `/…` is attached to the base origin, and any other relative
path is resolved against the base (whose path is empty, so against `/`). -/
def resolveUrl (base href : String) : String :=
  if containsSub "://" href then href
  else if litAt "//".data href.data then "https:" ++ href
  else if litAt "/".data href.data then base ++ href
  else base ++ "/" ++ href

/-- Is this node one of the section-heading tags the resolver scans
(`soup.find_all(["h2","h3"])`)? -/
def isSectionHeading (n : Node) : Bool := n.tag == "h2" || n.tag == "h3"

/-- Does a heading's text contain the showtimes-section marker phrase
(`"Times & tickets" in h.get_text()`)? -/
def hasMarker (n : Node) : Bool := containsSub "Times & tickets" n.txt

/-- The nodes following the first `h2`/`h3` heading whose text contains the
marker phrase.  The source iterates `heading.parent.find_all_next()`; in
flattened document order that walk visits the nodes of the showtimes section
that follow the marker heading, which is how the walk is modelled here. -/
def afterMarker : List Node → List Node
  | [] => []
  | n :: rest => if isSectionHeading n && hasMarker n then rest else afterMarker rest

/-- The scraping walk (steps inside the `for node in block.find_all_next()`
loop, in source order): update the current date label on a weekday-led text
line, record a (date-label, time-label, absolute URL) triple at each anchor
with an `href` whose text matches the strict time pattern while a date label
is current, and stop after an `h2`/`h3` whose text contains "Screening Key". -/
def walkNodes (cur : Option String) : List Node → List (String × String × String)
  | [] => []
  | n :: rest =>
    let cur' := if isDateLine n.txt then some (stripAfterComma n.txt) else cur
    let here :=
      match cur' with
      | some d =>
        if n.tag == "a" && n.href.isSome && (timeLabelMatch n.txt).isSome then
          [(d, n.txt, resolveUrl BASE (n.href.getD ""))]
        else []
      | none => []
    if isSectionHeading n && containsSub "Screening Key" n.txt then here
    else here ++ walkNodes cur' rest

/-- `parse_times_and_dates(soup)` with the reference date (`dt.date.today()`)
made an explicit parameter: locate the marker heading (returning `[]` when
absent), scrape the raw showtime triples, and resolve them. -/
def parse_times_and_dates (today : Date) (doc : PDoc) :
    Except String (List (DT × String)) :=
  match doc.nodes.find? (fun n => isSectionHeading n && hasMarker n) with
  | none => .ok []
  | some _ => resolveEvents today (walkNodes none (afterMarker doc.nodes))

/-! ## Field extractors -/

/-- Match `Duration:\s*(\d+)\s*mins` (case-insensitive) at the head of `cs`:
the literal, optional whitespace, a non-empty greedy digit run, optional
whitespace, the literal `mins`. -/
def durationAt (cs : List Char) : Option Nat :=
  if litAtCI "Duration:".data cs then
    let r1 := (cs.drop 9).dropWhile isWS
    let ds := r1.takeWhile Char.isDigit
    if ds.length == 0 then none
    else if litAtCI "mins".data ((r1.drop ds.length).dropWhile isWS) then
      some (natOfDigits ds)
    else none
  else none

/-- `re.search` for the duration pattern: first (leftmost) match wins. -/
def searchDuration : List Char → Option Nat
  | [] => none
  | c :: cs =>
    match durationAt (c :: cs) with
    | some n => some n
    | none => searchDuration cs

/-- `parse_duration_minutes(soup)`: the matched number, defaulting to 120. -/
def parse_duration_minutes (d : PDoc) : Nat :=
  match searchDuration d.fullText.data with
  | some n => n
  | none => 120

/-- Character class `[A-Z0-9+]` under `re.I`: ASCII letters, digits, `+`. -/
def isCertChar (c : Char) : Bool := c.isAlpha || c.isDigit || c == '+'

/-- Match `Certificate:\s*([A-Z0-9+]{1,4})` (case-insensitive) at the head:
the literal, optional whitespace, then greedily one to four class characters. -/
def certAt (cs : List Char) : Option String :=
  if litAtCI "Certificate:".data cs then
    let r1 := (cs.drop 12).dropWhile isWS
    let tok := (r1.takeWhile isCertChar).take 4
    if tok.length == 0 then none else some (String.mk tok)
  else none

/-- `re.search` for the certificate pattern. -/
def searchCert : List Char → Option String
  | [] => none
  | c :: cs =>
    match certAt (c :: cs) with
    | some t => some t
    | none => searchCert cs

/-- The closed certificate vocabulary of the fallback pattern
`\b(U|PG|12A|12|15|18)\b`, in alternation order. -/
def certTokens : List String := ["U", "PG", "12A", "12", "15", "18"]

/-- Try the alternation at the head of `cs` (word boundary before the head is
checked by the caller): a literal followed by a word boundary, first
alternative in order wins. -/
def certTokenAt (cs : List Char) : Option String :=
  certTokens.find? fun tk =>
    litAt tk.data cs &&
      (match cs.drop tk.length with
       | [] => true
       | c :: _ => !isWordChar c)

/-- `re.search(r"\b(U|PG|12A|12|15|18)\b", text)`: scan left to right; a
position qualifies when preceded by a non-word character (or the start). -/
def searchCertToken (prevIsWord : Bool) : List Char → Option String
  | [] => none
  | c :: cs =>
    match if prevIsWord then none else certTokenAt (c :: cs) with
    | some t => some t
    | none => searchCertToken (isWordChar c) cs

/-- `parse_certificate(soup)`: the `Certificate:` pattern over the flattened
text, else the vocabulary token in the first `h1`/`h2` text, else `""`. -/
def parse_certificate (d : PDoc) : String :=
  match searchCert d.fullText.data with
  | some t => t
  | none =>
    match d.headingTxt with
    | some h =>
      match searchCertToken false h.data with
      | some t => t
      | none => ""
    | none => ""

/-- `parse_description(soup)`: first paragraph longer than 40 characters,
truncated to 800; `""` when none qualifies. -/
def parse_description_paras : List String → String
  | [] => ""
  | p :: rest => if 40 < p.length then strTake p 800 else parse_description_paras rest

def parse_description (d : PDoc) : String := parse_description_paras d.paras

/-! ## Programme discovery -/

/-- The raw programme links of one index page: hrefs of anchors that have an
`href` containing the programme path fragment, resolved against `BASE`
(the per-page `links` set before deduplication). -/
def rawProgrammeLinks (d : PDoc) : List String :=
  d.nodes.filterMap fun n =>
    match n.href with
    | some h =>
      if n.tag == "a" && containsSub "/whats-on/programme/" h then
        some (resolveUrl BASE h)
      else none
    | none => none

/-- `find_programme_links(soup)`: `sorted(set(links))`. -/
def find_programme_links (d : PDoc) : List String :=
  (rawProgrammeLinks d).toFinset.sort (· ≤ ·)

/-- `soup.find("a", string=re.compile(r"Next", re.I))`: is there an anchor
whose text contains "next" case-insensitively? -/
def hasNextLink (d : PDoc) : Bool :=
  d.nodes.any fun n => n.tag == "a" && subInCI "Next".data n.txt.data

/-- `iter_whats_on_pages()`: fetch page `page`, yield it, continue with the
next page number while a "Next" link is present.  The source's `while True`
loop has no iteration bound, so the model takes explicit fuel; `none` means
the fuel ran out with the loop still running. -/
def iter_whats_on_pages (fetch : Nat → PDoc) : Nat → Nat → Option (List PDoc)
  | 0, _ => none
  | fuel + 1, page =>
    let d := fetch page
    if hasNextLink d then
      match iter_whats_on_pages fetch fuel (page + 1) with
      | none => none
      | some rest => some (d :: rest)
    else some [d]

/-- The accumulated programme-URL set of `build_calendar`
(`programme_urls |= set(find_programme_links(soup))` over the yielded pages). -/
def gatherProgrammeUrls (pages : List PDoc) : Finset String :=
  pages.foldl (fun acc d => acc ∪ (find_programme_links d).toFinset) ∅

/-- The order in which `build_calendar` visits programme pages:
`sorted(programme_urls)`. -/
def sortedProgrammeUrls (pages : List PDoc) : List String :=
  (gatherProgrammeUrls pages).sort (· ≤ ·)

/-! ## SHA-1 (model of `hashlib.sha1(...).hexdigest()`)

A complete executable SHA-1 over byte lists, with 32-bit words as `Nat`
reduced `% 2^32`. -/

def M32 : Nat := 4294967296

/-- Rotate a 32-bit word left by `k` (for `n < 2^32`, `0 < k < 32`). -/
def rotl (k n : Nat) : Nat := (n * 2 ^ k + n / 2 ^ (32 - k)) % M32

/-- Round function of round `t`. -/
def sha1F (t b c d : Nat) : Nat :=
  if t < 20 then (b &&& c) ||| ((4294967295 ^^^ b) &&& d)
  else if t < 40 then b ^^^ c ^^^ d
  else if t < 60 then (b &&& c) ||| (b &&& d) ||| (c &&& d)
  else b ^^^ c ^^^ d

/-- Round constant of round `t`. -/
def sha1K (t : Nat) : Nat :=
  if t < 20 then 0x5A827999
  else if t < 40 then 0x6ED9EBA1
  else if t < 60 then 0x8F1BBCDC
  else 0xCA62C1D6

/-- Big-endian 32-bit word from four bytes. -/
def word32 (b0 b1 b2 b3 : Nat) : Nat := ((b0 * 256 + b1) * 256 + b2) * 256 + b3

/-- Group a 64-byte chunk into sixteen big-endian words. -/
def toWords : List Nat → List Nat
  | b0 :: b1 :: b2 :: b3 :: rest => word32 b0 b1 b2 b3 :: toWords rest
  | _ => []

/-- Message-schedule extension over the reversed word list (most recent
word first): `w[i] = rotl1 (w[i-3] xor w[i-8] xor w[i-14] xor w[i-16])`. -/
def extendW : Nat → List Nat → List Nat
  | 0, acc => acc
  | k + 1, acc =>
    let w := rotl 1 (acc.getD 2 0 ^^^ acc.getD 7 0 ^^^ acc.getD 13 0 ^^^ acc.getD 15 0)
    extendW k (w :: acc)

/-- The eighty compression rounds over the schedule words. -/
def sha1Rounds : Nat → List Nat → Nat × Nat × Nat × Nat × Nat → Nat × Nat × Nat × Nat × Nat
  | _, [], st => st
  | t, w :: ws, (a, b, c, d, e) =>
    let temp := (rotl 5 a + sha1F t b c d + e + sha1K t + w) % M32
    sha1Rounds (t + 1) ws (temp, a, rotl 30 b, c, d)

/-- Compress one 64-byte chunk into the running state. -/
def processChunk (st : Nat × Nat × Nat × Nat × Nat) (chunk : List Nat) :
    Nat × Nat × Nat × Nat × Nat :=
  let ws := (extendW 64 (toWords chunk).reverse).reverse
  match st, sha1Rounds 0 ws st with
  | (h0, h1, h2, h3, h4), (a, b, c, d, e) =>
    ((h0 + a) % M32, (h1 + b) % M32, (h2 + c) % M32, (h3 + d) % M32, (h4 + e) % M32)

/-- `count` big-endian bytes of `n`. -/
def beBytes : Nat → Nat → List Nat
  | 0, _ => []
  | k + 1, n => beBytes k (n / 256) ++ [n % 256]

/-- Merkle–Damgård padding: `0x80`, zeros to 56 mod 64, 8-byte bit length. -/
def sha1Pad (msg : List Nat) : List Nat :=
  let L := msg.length
  msg ++ [128] ++ List.replicate ((119 - L % 64) % 64) 0 ++ beBytes 8 (8 * L)

/-- Split into 64-byte chunks (structural recursion on a length bound, so
that the definition evaluates by reduction). -/
def chunks64Aux : Nat → List Nat → List (List Nat)
  | 0, _ => []
  | _, [] => []
  | fuel + 1, b :: bs => ((b :: bs).take 64) :: chunks64Aux fuel ((b :: bs).drop 64)

def chunks64 (l : List Nat) : List (List Nat) := chunks64Aux l.length l

def sha1Init : Nat × Nat × Nat × Nat × Nat :=
  (0x67452301, 0xEFCDAB89, 0x98BADCFE, 0x10325476, 0xC3D2E1F0)

def hexDigit (n : Nat) : Char :=
  if n < 10 then Char.ofNat (48 + n) else Char.ofNat (97 + n - 10)

/-- `count` lowercase hex digits of `n`, most significant first. -/
def toHex : Nat → Nat → List Char
  | 0, _ => []
  | k + 1, n => toHex k (n / 16) ++ [hexDigit (n % 16)]

/-- `hashlib.sha1(bytes).hexdigest()`. -/
def sha1Hex (msg : List Nat) : String :=
  match (chunks64 (sha1Pad msg)).foldl processChunk sha1Init with
  | (h0, h1, h2, h3, h4) =>
    String.mk (toHex 8 h0 ++ toHex 8 h1 ++ toHex 8 h2 ++ toHex 8 h3 ++ toHex 8 h4)

/-- UTF-8 encoding of one code point (Python `str.encode("utf-8")`). -/
def utf8Encode (c : Nat) : List Nat :=
  if c < 128 then [c]
  else if c < 2048 then [192 + c / 64, 128 + c % 64]
  else if c < 65536 then [224 + c / 4096, 128 + c / 64 % 64, 128 + c % 64]
  else [240 + c / 262144, 128 + c / 4096 % 64, 128 + c / 64 % 64, 128 + c % 64]

/-- UTF-8 bytes of a string. -/
def strBytes (s : String) : List Nat :=
  s.data.foldr (fun c acc => utf8Encode c.toNat ++ acc) []

/-! ## ISO formatting of start instants

`start_dt.isoformat()` on a `ZoneInfo("Europe/London")`-aware datetime emits
the field tuple plus the UTC offset in force at that instant.  The offset is
modelled by the current EU daylight-saving rule (BST, `+01:00`, from the last
Sunday of March to the last Sunday of October; `+00:00` otherwise), which is
the `Europe/London` rule for every modern date the crawler can produce. -/

/-- Python `date.weekday()`: 0 = Monday … 6 = Sunday (0001-01-01 is a
Monday). -/
def weekdayOf (d : Date) : Nat := (toOrd d - 1) % 7

/-- Day of month of the last Sunday of month `m` in year `y`. -/
def lastSundayDay (y m : Nat) : Nat :=
  let dim := daysInMonth (isLeap y) m
  dim - (weekdayOf ⟨y, m, dim⟩ + 1) % 7

/-- Is the wall-clock instant in British Summer Time? -/
def isBST (t : DT) : Bool :=
  if t.month < 3 || 10 < t.month then false
  else if 3 < t.month && t.month < 10 then true
  else if t.month == 3 then
    let ls := lastSundayDay t.year 3
    decide (ls < t.day) || (t.day == ls && decide (1 ≤ t.hour))
  else
    let ls := lastSundayDay t.year 10
    decide (t.day < ls) || (t.day == ls && decide (t.hour < 2))

def pad2 (n : Nat) : String := if n < 10 then "0" ++ toString n else toString n

def pad4 (n : Nat) : String :=
  if n < 10 then "000" ++ toString n
  else if n < 100 then "00" ++ toString n
  else if n < 1000 then "0" ++ toString n
  else toString n

/-- `datetime.isoformat()` for the whole-minute aware datetimes the resolver
builds. -/
def isoFormat (t : DT) : String :=
  pad4 t.year ++ "-" ++ pad2 t.month ++ "-" ++ pad2 t.day ++ "T" ++
    pad2 t.hour ++ ":" ++ pad2 t.minute ++ ":00" ++
    (if isBST t then "+01:00" else "+00:00")

/-! ## Event assembly and the orchestrator -/

/-- `make_uid(title, start_dt, href)`. -/
def make_uid (title : String) (start : DT) (href : String) : String :=
  sha1Hex (strBytes (title ++ "|" ++ isoFormat start ++ "|" ++ href)) ++
    "@phoenix-leicester"

/-- Successor calendar day. -/
def nextDay (d : Date) : Date :=
  if d.day < daysInMonth (isLeap d.year) d.month then ⟨d.year, d.month, d.day + 1⟩
  else if d.month < 12 then ⟨d.year, d.month + 1, 1⟩
  else ⟨d.year + 1, 1, 1⟩

def addDays : Date → Nat → Date
  | d, 0 => d
  | d, k + 1 => addDays (nextDay d) k

/-- `start_dt + dt.timedelta(minutes=k)` on the field tuple. -/
def addMinutes (t : DT) (k : Nat) : DT :=
  let m := t.minute + k
  let h := t.hour + m / 60
  let dd := addDays ⟨t.year, t.month, t.day⟩ (h / 24)
  ⟨dd.year, dd.month, dd.day, h % 24, m % 60, t.tz⟩

/-- Strip a trailing certificate token from a title,
`re.sub(r"\s+\b(U|PG|12A|12|15|18)\b$", "", title)`: when the title ends in
whitespace followed by a vocabulary token, drop the token and the whitespace
run. -/
def stripTrailingCert (s : String) : String :=
  let rcs := s.data.reverse
  match certTokens.find? (fun tk =>
      litAt tk.data.reverse rcs &&
        (match rcs.drop tk.length with
         | c :: _ => isWS c
         | [] => false)) with
  | some tk => String.mk ((rcs.drop tk.length).dropWhile isWS).reverse
  | none => s

/-- Event summary: title, with ` (CERT)` appended when the certificate is
non-empty. -/
def mkSummary (title cert : String) : String :=
  title ++ (if cert ≠ "" then " (" ++ cert ++ ")" else "")

def LOCATION : String := "Phoenix, 4 Midland Street, Leicester LE1 1TG"

/-- One VEVENT as assembled by `build_calendar`'s inner loop. -/
structure CalEvent where
  uid : String
  summary : String
  dtstart : DT
  dtend : DT
  location : String
  url : String
  description : Option String
deriving DecidableEq, Repr

/-- The per-programme body of `build_calendar`'s main loop: extract the
fields of one programme page and cross them with its resolved showtimes. -/
def assembleProgramme (today : Date) (d : PDoc) : Except String (List CalEvent) :=
  let title := stripTrailingCert (d.headingTxt.getD "Phoenix Screening")
  let cert := parse_certificate d
  let desc := parse_description d
  let dur := parse_duration_minutes d
  (parse_times_and_dates today d).map fun shows =>
    shows.map fun sh =>
      { uid := make_uid title sh.1 sh.2
        summary := mkSummary title cert
        dtstart := sh.1
        dtend := addMinutes sh.1 dur
        location := LOCATION
        url := sh.2
        description := if desc ≠ "" then some desc else none }

/-- The programme loop over the sorted URL set; an exception from any
programme aborts the run. -/
def assembleAll (today : Date) (fetchProg : String → PDoc) :
    List String → Except String (List CalEvent)
  | [] => .ok []
  | u :: rest => do
    let evs ← assembleProgramme today (fetchProg u)
    let more ← assembleAll today fetchProg rest
    .ok (evs ++ more)

/-- The output feed: fixed metadata plus the accumulated events. -/
structure Feed where
  prodid : String
  version : String
  calname : String
  tzid : String
  events : List CalEvent
deriving DecidableEq, Repr

/-- `build_calendar()`, with the transport collaborator explicit: the index
pages come from `fetchIdx` (by page number), the programme pages from
`fetchProg` (by URL); `today` is the reference date and `fuel` bounds the
unbounded pagination loop (`none` = the loop was still running). -/
def build_calendar (fetchIdx : Nat → PDoc) (fetchProg : String → PDoc)
    (today : Date) (fuel : Nat) : Option (Except String Feed) :=
  match iter_whats_on_pages fetchIdx fuel 1 with
  | none => none
  | some pages =>
    some ((assembleAll today fetchProg (sortedProgrammeUrls pages)).map fun evs =>
      { prodid := "-//Phoenix Leicester iCal//EN"
        version := "2.0"
        calname := "Phoenix Leicester — What’s On"
        tzid := "Europe/London"
        events := evs })

/-! ## Helper lemmas on the calendar arithmetic -/

set_option maxHeartbeats 2000000 in
theorem daysBeforeYear_succ (y : Nat) (hy : 1 ≤ y) :
    daysBeforeYear (y + 1) = daysBeforeYear y + daysInYear y := by
  simp only [daysBeforeYear, daysInYear, isLeap, Nat.add_sub_cancel]
  split
  · rename_i h
    simp only [Bool.or_eq_true, Bool.and_eq_true, beq_iff_eq, bne_iff_ne, ne_eq] at h
    omega
  · rename_i h
    simp only [Bool.or_eq_true, Bool.and_eq_true, beq_iff_eq, bne_iff_ne, ne_eq,
      not_or, not_and, not_not] at h
    omega

theorem daysBeforeMonth_add_day_le (leap : Bool) (m d : Nat) (h1 : 1 ≤ m)
    (h12 : m ≤ 12) (hd : d ≤ daysInMonth leap m) :
    daysBeforeMonth leap m + d ≤ daysInYear' leap := by
  interval_cases m <;> cases leap <;>
    simp [daysBeforeMonth, daysInMonth, daysInYear'] at * <;> omega

theorem toOrd_le_year_end (d : Date) (h : validDate d = true) :
    toOrd d ≤ daysBeforeYear (d.year + 1) := by
  simp only [validDate, Bool.and_eq_true, decide_eq_true_eq] at h
  obtain ⟨⟨⟨⟨⟨hy1, hy2⟩, hm1⟩, hm12⟩, hd1⟩, hd2⟩ := h
  have hb := daysBeforeMonth_add_day_le (isLeap d.year) d.month d.day hm1 hm12 hd2
  have hs := daysBeforeYear_succ d.year hy1
  have he : daysInYear d.year = daysInYear' (isLeap d.year) := by
    cases hl : isLeap d.year <;> simp [daysInYear, daysInYear', hl]
  rw [he] at hs
  simp only [toOrd]
  omega

theorem toOrd_lt_of_year_succ (a b : Date) (ha : validDate a = true)
    (hb : validDate b = true) (hy : b.year = a.year + 1) : toOrd a < toOrd b := by
  have h1 := toOrd_le_year_end a ha
  have hd1 : 1 ≤ b.day := by
    simp only [validDate, Bool.and_eq_true, decide_eq_true_eq] at hb
    exact hb.1.2
  have h2 : daysBeforeYear (a.year + 1) = daysBeforeYear b.year := by rw [hy]
  have h3 : daysBeforeYear b.year + 1 ≤ toOrd b := by
    simp only [toOrd]; omega
  omega

/-! ## Helper lemmas on the resolver -/

/-- The cutoff invariant for a single resolved item: a successfully resolved
showtime carries the fixed timezone and its calendar date is at most 2 days
before the reference date. -/
theorem resolveOne_cutoff (today : Date) (dl tl href : String) (t : DT) (u : String)
    (hv : validDate today = true)
    (h : resolveOne today dl tl href = .ok (some (t, u))) :
    t.tz = TZNAME ∧ toOrd today ≤ toOrd t.dateOf + 2 := by
  unfold resolveOne at h
  split at h
  · exact absurd h (by simp)
  rename_i p day monTok hp
  split at h
  · exact absurd h (by simp)
  rename_i q mon hq
  split at h
  · exact absurd h (by simp)
  rename_i h1
  split at h
  · exact absurd h (by simp)
  rename_i h2
  split at h
  · exact absurd h (by simp)
  rename_i r hh mm isPM hr
  split at h
  · exact absurd h (by simp)
  rename_i h3
  simp only [Except.ok.injEq, Option.some.injEq, Prod.mk.injEq] at h
  obtain ⟨ht, _⟩ := h
  subst ht
  refine ⟨rfl, ?_⟩
  have h2' : validDate ⟨pickYear today mon day, mon, day⟩ = true := by
    revert h2; cases validDate ⟨pickYear today mon day, mon, day⟩ <;> simp
  simp only [DT.dateOf]
  by_cases hc : toOrd ⟨today.year, mon, day⟩ + 2 < toOrd today
  · have hpy : pickYear today mon day = today.year + 1 := by
      simp [pickYear, hc]
    rw [hpy] at h2' ⊢
    have := toOrd_lt_of_year_succ today ⟨today.year + 1, mon, day⟩ hv h2' rfl
    omega
  · have hpy : pickYear today mon day = today.year := by
      simp [pickYear, hc]
    rw [hpy]
    omega

/-- The cutoff invariant lifted over the resolution loop. -/
theorem resolveEvents_cutoff (today : Date) (evs : List (String × String × String))
    (l : List (DT × String)) (hv : validDate today = true)
    (h : resolveEvents today evs = .ok l) :
    ∀ r ∈ l, r.1.tz = TZNAME ∧ toOrd today ≤ toOrd r.1.dateOf + 2 := by
  induction evs generalizing l with
  | nil =>
    simp only [resolveEvents, Except.ok.injEq] at h
    subst h
    intro r hr
    exact absurd hr (List.not_mem_nil r)
  | cons e rest ih =>
    obtain ⟨d, t, u⟩ := e
    simp only [resolveEvents] at h
    split at h
    · exact absurd h (by simp)
    · exact ih l h
    · rename_i r hr
      cases hrest : resolveEvents today rest with
      | error e' => rw [hrest] at h; exact absurd h (by simp [Except.map])
      | ok l' =>
        rw [hrest] at h
        simp only [Except.map, Except.ok.injEq] at h
        subst h
        intro x hx
        rcases List.mem_cons.mp hx with hx | hx
        · subst hx
          exact resolveOne_cutoff today d t u x.1 x.2 hv (by rw [hr])
        · exact ih l' hrest x hx

/-! ## Helper lemmas on extractors, discovery and pagination -/

theorem parse_description_paras_eq (ps : List String) :
    parse_description_paras ps =
      (match ps.find? (fun p => decide (40 < p.length)) with
       | some p => strTake p 800
       | none => "") := by
  induction ps with
  | nil => rfl
  | cons p rest ih =>
    by_cases hp : 40 < p.length
    · simp [parse_description_paras, List.find?, hp]
    · simp [parse_description_paras, List.find?, hp, ih]

theorem mem_find_programme_links (d : PDoc) (u : String) :
    u ∈ find_programme_links d ↔ u ∈ rawProgrammeLinks d := by
  simp [find_programme_links, Finset.mem_sort, List.mem_toFinset]

theorem mem_foldl_union (pages : List PDoc) (init : Finset String) (u : String) :
    u ∈ pages.foldl (fun acc d => acc ∪ (find_programme_links d).toFinset) init ↔
      u ∈ init ∨ ∃ d ∈ pages, u ∈ find_programme_links d := by
  induction pages generalizing init with
  | nil => simp
  | cons d rest ih =>
    simp only [List.foldl_cons, ih, Finset.mem_union, List.mem_toFinset,
      List.mem_cons]
    constructor
    · rintro ((hu | hu) | ⟨d', hd', hu⟩)
      · exact Or.inl hu
      · exact Or.inr ⟨d, Or.inl rfl, hu⟩
      · exact Or.inr ⟨d', Or.inr hd', hu⟩
    · rintro (hu | ⟨d', hd' | hd', hu⟩)
      · exact Or.inl (Or.inl hu)
      · subst hd'; exact Or.inl (Or.inr hu)
      · exact Or.inr ⟨d', hd', hu⟩

theorem iter_pages_none_iff (fetch : Nat → PDoc) (fuel page : Nat) :
    iter_whats_on_pages fetch fuel page = none ↔
      ∀ i, i < fuel → hasNextLink (fetch (page + i)) = true := by
  induction fuel generalizing page with
  | zero => simp [iter_whats_on_pages]
  | succ n ih =>
    simp only [iter_whats_on_pages]
    by_cases hn : hasNextLink (fetch page) = true
    · rw [if_pos hn]
      constructor
      · intro hnone i hi
        cases i with
        | zero => simpa using hn
        | succ j =>
          have hrec : iter_whats_on_pages fetch n (page + 1) = none := by
            revert hnone
            cases iter_whats_on_pages fetch n (page + 1) <;> simp
          have := (ih (page + 1)).mp hrec j (by omega)
          have e : page + 1 + j = page + (j + 1) := by omega
          rwa [e] at this
      · intro hall
        have hrec : iter_whats_on_pages fetch n (page + 1) = none := by
          refine (ih (page + 1)).mpr fun i hi => ?_
          have := hall (i + 1) (by omega)
          have e : page + (i + 1) = page + 1 + i := by omega
          rwa [e] at this
        rw [hrec]
    · rw [if_neg hn]
      constructor
      · intro h; exact absurd h (by simp)
      · intro hall
        exact absurd (by simpa using hall 0 (by omega)) hn

/-! ## Claim theorems -/

/-- C1: year disambiguation.  For every reference date and day/month pair the
resolver tentatively assigns the reference year and rolls forward to the next
year exactly when the tentative calendar date is more than 2 days in the past
relative to the reference date; the assigned year is never earlier than the
reference year.  With reference date 2025-08-30, the label "Sun 31 Aug"
resolves in year 2025 and "Wed 1 Jan" resolves in year 2026. -/
theorem year_disambiguation :
    (∀ (today : Date) (mon day : Nat),
      (pickYear today mon day = today.year + 1 ↔
        toOrd ⟨today.year, mon, day⟩ + 2 < toOrd today) ∧
      today.year ≤ pickYear today mon day) ∧
    resolveOne ⟨2025, 8, 30⟩ "Sun 31 Aug" "5.00pm" "u" =
      .ok (some (⟨2025, 8, 31, 17, 0, TZNAME⟩, "u")) ∧
    resolveOne ⟨2025, 8, 30⟩ "Wed 1 Jan" "5.00pm" "u" =
      .ok (some (⟨2026, 1, 1, 17, 0, TZNAME⟩, "u")) := by
  refine ⟨fun today mon day => ⟨?_, ?_⟩, rfl, rfl⟩
  · unfold pickYear
    by_cases hc : toOrd ⟨today.year, mon, day⟩ + 2 < toOrd today
    · rw [if_pos hc]; simp [hc]
    · rw [if_neg hc]
      constructor
      · intro h; omega
      · intro h; exact absurd h hc
  · unfold pickYear; split <;> omega

/-- C2: twelve-hour clock normalization.  For every time label matching the
strict pattern the resolver computes the 24-hour value by reducing the hour
token modulo 12 (so hour 12 becomes 0) before adding 12 for "pm"; in
particular "12.00pm" resolves to 12:00, "12.00am" to 00:00, "5.30pm" to
17:30 and "9.15am" to 09:15. -/
theorem twelve_hour_clock :
    (∀ (h : Nat) (isPM : Bool), 1 ≤ h → h ≤ 12 →
      to24Hour h isPM = (if h = 12 then 0 else h) + (if isPM then 12 else 0)) ∧
    resolveOne ⟨2025, 8, 30⟩ "Sun 31 Aug" "12.00pm" "u" =
      .ok (some (⟨2025, 8, 31, 12, 0, TZNAME⟩, "u")) ∧
    resolveOne ⟨2025, 8, 30⟩ "Sun 31 Aug" "12.00am" "u" =
      .ok (some (⟨2025, 8, 31, 0, 0, TZNAME⟩, "u")) ∧
    resolveOne ⟨2025, 8, 30⟩ "Sun 31 Aug" "5.30pm" "u" =
      .ok (some (⟨2025, 8, 31, 17, 30, TZNAME⟩, "u")) ∧
    resolveOne ⟨2025, 8, 30⟩ "Sun 31 Aug" "9.15am" "u" =
      .ok (some (⟨2025, 8, 31, 9, 15, TZNAME⟩, "u")) := by
  refine ⟨?_, rfl, rfl, rfl, rfl⟩
  intro h isPM h1 h12
  cases isPM <;> by_cases h2 : h = 12 <;> simp [to24Hour, h2] <;> omega

/-- Witness for C2: the general clause applied at hour 12, pm. -/
theorem twelve_hour_clock_witness :
    to24Hour 12 true = (if 12 = 12 then 0 else 12) + (if true then 12 else 0) :=
  twelve_hour_clock.1 12 true (by decide) (by decide)

/-- C10: an hour token outside 1–12 that still matches the strict pattern is
not rejected: the hour is reduced modulo 12 before the pm offset, so
"13.00pm" resolves to 13:00 and "0.30am" resolves to 00:30. -/
theorem hour_out_of_range_normalized :
    timeLabelMatch "13.00pm" = some (13, 0, true) ∧
    timeLabelMatch "0.30am" = some (0, 30, false) ∧
    resolveOne ⟨2025, 8, 30⟩ "Sun 31 Aug" "13.00pm" "u" =
      .ok (some (⟨2025, 8, 31, 13, 0, TZNAME⟩, "u")) ∧
    resolveOne ⟨2025, 8, 30⟩ "Sun 31 Aug" "0.30am" "u" =
      .ok (some (⟨2025, 8, 31, 0, 30, TZNAME⟩, "u")) ∧
    (∀ (h : Nat) (isPM : Bool), to24Hour h isPM = h % 12 + (if isPM then 12 else 0)) :=
  ⟨rfl, rfl, rfl, rfl, fun _ _ => rfl⟩

/-- C4: the code does NOT recover from every malformed label.  A date label
that matches the date regex but carries a three-letter token that is not a
month name ("Sun 31 Xyz") raises an uncaught `KeyError` from the month map,
aborting the whole walk — contradicting the claim that a parse anomaly is
skipped and never raises.  (Labels failing the regexes are indeed skipped,
as the last two conjuncts record.) -/
theorem malformed_month_label_raises :
    parse_times_and_dates ⟨2025, 8, 30⟩
      ⟨"", [], none,
        [⟨"h2", "Times & tickets", none⟩,
         ⟨"p", "Sun 31 Xyz", none⟩,
         ⟨"a", "5.30pm", some "/book/1"⟩]⟩ = .error "KeyError" ∧
    resolveOne ⟨2025, 8, 30⟩ "not a date label" "5.30pm" "u" = .ok none ∧
    resolveOne ⟨2025, 8, 30⟩ "Sun 31 Aug" "bad time" "u" = .ok none :=
  ⟨rfl, rfl, rfl⟩

/-- C9: a programme document with no `h2`/`h3` heading containing the
showtimes-section marker phrase yields the empty showtime list, without
raising, for every reference date. -/
theorem no_marker_heading_no_events (today : Date) (doc : PDoc)
    (h : ∀ n ∈ doc.nodes, (isSectionHeading n && hasMarker n) = false) :
    parse_times_and_dates today doc = .ok [] := by
  unfold parse_times_and_dates
  have hf : doc.nodes.find? (fun n => isSectionHeading n && hasMarker n) = none := by
    rw [List.find?_eq_none]
    intro n hn
    simp [h n hn]
  rw [hf]

/-- Witness for C9: a document whose only heading is not the marker. -/
theorem no_marker_heading_no_events_witness :
    parse_times_and_dates ⟨2025, 8, 30⟩
      ⟨"", [], none, [⟨"p", "nothing", none⟩, ⟨"h2", "Other section", none⟩]⟩ =
      .ok [] :=
  no_marker_heading_no_events ⟨2025, 8, 30⟩
    ⟨"", [], none, [⟨"p", "nothing", none⟩, ⟨"h2", "Other section", none⟩]⟩
    (by decide)

/-- C3: every resolved showtime of every document carries the fixed timezone
and has a calendar date on or after the reference date minus 2 days (its
ordinal is within 2 of the reference ordinal), for every valid reference
date. -/
theorem resolved_showtime_cutoff (today : Date) (doc : PDoc)
    (l : List (DT × String)) (hv : validDate today = true)
    (hp : parse_times_and_dates today doc = .ok l) :
    ∀ r ∈ l, r.1.tz = TZNAME ∧ toOrd today ≤ toOrd r.1.dateOf + 2 := by
  unfold parse_times_and_dates at hp
  split at hp
  · simp only [Except.ok.injEq] at hp
    subst hp
    simp
  · exact resolveEvents_cutoff today _ l hv hp

/-- Witness for C3: the invariant instantiated on a one-showtime document. -/
theorem resolved_showtime_cutoff_witness :
    ((⟨2025, 8, 31, 12, 0, TZNAME⟩ : DT), "https://www.phoenix.org.uk/b").1.tz = TZNAME ∧
    toOrd ⟨2025, 8, 30⟩ ≤
      toOrd ((⟨2025, 8, 31, 12, 0, TZNAME⟩ : DT), "https://www.phoenix.org.uk/b").1.dateOf + 2 :=
  resolved_showtime_cutoff ⟨2025, 8, 30⟩
    ⟨"", [], none,
      [⟨"h2", "Times & tickets", none⟩,
       ⟨"p", "Sun 31 Aug", none⟩,
       ⟨"a", "12.00pm", some "/b"⟩]⟩
    [(⟨2025, 8, 31, 12, 0, TZNAME⟩, "https://www.phoenix.org.uk/b")]
    (by decide) (by rfl)
    (⟨2025, 8, 31, 12, 0, TZNAME⟩, "https://www.phoenix.org.uk/b") (by simp)

/-- C7: for every sequence of index pages, the programme-URL list the
orchestrator iterates is sorted, duplicate-free, and contains exactly the
union of the programme links found on the pages (anchors whose hrefs match
the programme-path pattern, resolved to absolute URLs), regardless of
cross-page duplicate links. -/
theorem discovery_sorted_dedup_union (pages : List PDoc) :
    (sortedProgrammeUrls pages).Sorted (· ≤ ·) ∧
    (sortedProgrammeUrls pages).Nodup ∧
    ∀ u, u ∈ sortedProgrammeUrls pages ↔ ∃ d ∈ pages, u ∈ rawProgrammeLinks d := by
  refine ⟨Finset.sort_sorted _ _, Finset.sort_nodup _ _, fun u => ?_⟩
  simp only [sortedProgrammeUrls, gatherProgrammeUrls, Finset.mem_sort,
    mem_foldl_union, Finset.not_mem_empty, false_or, mem_find_programme_links]

/-- C8: field-extractor fallbacks.  When the duration pattern is absent the
duration extractor returns 120; when neither certificate pattern matches the
certificate extractor returns the empty string and the summary then carries
no parenthesized suffix; the synopsis extractor returns the first paragraph
longer than 40 characters truncated to its first 800 characters, and the
empty string when none qualifies. -/
theorem extractor_defaults (d : PDoc) (title : String) :
    (searchDuration d.fullText.data = none → parse_duration_minutes d = 120) ∧
    (searchCert d.fullText.data = none →
      (∀ ht, d.headingTxt = some ht → searchCertToken false ht.data = none) →
      parse_certificate d = "" ∧ mkSummary title (parse_certificate d) = title) ∧
    parse_description d =
      (match d.paras.find? (fun p => decide (40 < p.length)) with
       | some p => strTake p 800
       | none => "") := by
  refine ⟨?_, ?_, parse_description_paras_eq d.paras⟩
  · intro hdur
    unfold parse_duration_minutes
    rw [hdur]
  · intro hc1 hc2
    have hcert : parse_certificate d = "" := by
      cases hh : d.headingTxt with
      | none => unfold parse_certificate; rw [hc1, hh]
      | some ht =>
        unfold parse_certificate
        rw [hc1, hh]
        show (match searchCertToken false ht.data with
              | some t => t
              | none => "") = ""
        rw [hc2 ht hh]
    refine ⟨hcert, ?_⟩
    rw [hcert]
    simp [mkSummary]

/-- Witness for C8: a document with no duration pattern, no certificate in
either position, and no qualifying paragraph. -/
theorem extractor_defaults_witness :
    parse_duration_minutes ⟨"Hello world", ["short"], some "No token here", []⟩ = 120 ∧
    parse_certificate ⟨"Hello world", ["short"], some "No token here", []⟩ = "" ∧
    mkSummary "T" (parse_certificate ⟨"Hello world", ["short"], some "No token here", []⟩) = "T" := by
  have h := extractor_defaults ⟨"Hello world", ["short"], some "No token here", []⟩ "T"
  have hc := h.2.1 (by decide) (by intro ht hht; cases hht; decide)
  exact ⟨h.1 (by decide), hc.1, hc.2⟩

/-- C6 (counterexample): the pagination loop has no defensive iteration cap:
when every fetched page carries a "Next" control the loop is still running
after 300 iterations — there is no cap of "a few hundred" and no logged
anomaly. -/
theorem pagination_no_cap_counterexample :
    iter_whats_on_pages
      (fun _ => ⟨"", [], none, [⟨"a", "Next", some "/whats-on/?pageno=2"⟩]⟩)
      300 1 = none := by
  rw [iter_pages_none_iff]
  intro i hi
  rfl

/-- C6 (amended): the pagination loop is bounded by nothing except the "Next"
control: for every fuel bound, the loop is still running after `fuel` pages
exactly when every one of those pages carries a "Next" link; equivalently it
terminates within `fuel` pages exactly when some visited page lacks the
control. -/
theorem pagination_terminates_iff_next_absent (fetch : Nat → PDoc) (fuel page : Nat) :
    iter_whats_on_pages fetch fuel page = none ↔
      ∀ i, i < fuel → hasNextLink (fetch (page + i)) = true :=
  iter_pages_none_iff fetch fuel page

set_option maxRecDepth 100000 in
set_option maxHeartbeats 2000000 in
/-- C5: determinism of identities and of the feed.  The event fingerprint is
a function of exactly (title, ISO start instant, booking URL): equal triples
give byte-identical UIDs; two runs of the pipeline over pointwise-identical
source documents with the same reference date produce identical feeds; and
the fingerprint embedding is the real SHA-1 (the concrete UID below matches
`hashlib.sha1` on the same input). -/
theorem uid_and_feed_deterministic :
    (∀ (t : String) (s : DT) (h : String) (t2 : String) (s2 : DT) (h2 : String),
      t = t2 → s = s2 → h = h2 → make_uid t s h = make_uid t2 s2 h2) ∧
    (∀ (fi fi2 : Nat → PDoc) (fp fp2 : String → PDoc) (today : Date) (fuel : Nat),
      (∀ p, fi p = fi2 p) → (∀ u, fp u = fp2 u) →
      build_calendar fi fp today fuel = build_calendar fi2 fp2 today fuel) ∧
    make_uid "Test" ⟨2025, 8, 31, 12, 0, TZNAME⟩ "https://x/" =
      "40c3e395d5b3ca6e2471793c75c39e8db1ccc85a@phoenix-leicester" := by
  refine ⟨?_, ?_, ?_⟩
  · rintro t s h t2 s2 h2 rfl rfl rfl
    rfl
  · intro fi fi2 fp fp2 today fuel hfi hfp
    rw [funext hfi, funext hfp]
  · rfl

/-- Witness for C5: both deterministic clauses applied at concrete inputs. -/
theorem uid_and_feed_deterministic_witness :
    make_uid "a" ⟨2026, 1, 1, 17, 30, TZNAME⟩ "b" =
      make_uid "a" ⟨2026, 1, 1, 17, 30, TZNAME⟩ "b" ∧
    build_calendar (fun _ => ⟨"", [], none, []⟩) (fun _ => ⟨"", [], none, []⟩)
        ⟨2025, 8, 30⟩ 5 =
      build_calendar (fun _ => ⟨"", [], none, []⟩) (fun _ => ⟨"", [], none, []⟩)
        ⟨2025, 8, 30⟩ 5 :=
  ⟨uid_and_feed_deterministic.1 "a" ⟨2026, 1, 1, 17, 30, TZNAME⟩ "b"
      "a" ⟨2026, 1, 1, 17, 30, TZNAME⟩ "b" rfl rfl rfl,
   uid_and_feed_deterministic.2.1 _ _ _ _ ⟨2025, 8, 30⟩ 5
      (fun _ => rfl) (fun _ => rfl)⟩

end Phoenix
